import Mathlib

/-!
Verification of the epoll/kqueue proactor core from
`src/util/fibers/epoll_proactor.cc` (helio).  The definitions below are a
shallow embedding of the completion table, the completion dispatcher and the
main-loop control logic of that file; machine integers are modelled as
`Nat`/`Int` (no value in the relevant code paths approaches the 32/64-bit
overflow boundary), C++ `std::function` callbacks are modelled as abstract
identifiers, and fatal `CHECK` macros are modelled with `Option`/`Except`.
-/

namespace EpollProactor

/-- `kIgnoreIndex` from the anonymous namespace: reserved user-data value for
the wake signal. -/
def kIgnoreIndex : Nat := 0

/-- `kUserDataCbIndex`: first user-data value that maps to a completion-table
handle (`user_data - kUserDataCbIndex` indexes `centries_`). -/
def kUserDataCbIndex : Nat := 1024

/-- `kEvBatchSize`: capacity of one `EventsBatch`. -/
def kEvBatchSize : Nat := 128

/-- One completion-table entry (`CompletionEntry` in `epoll_proactor.h`):
`cb` is the user callback (modelled by an abstract identifier, `none` when the
slot is free) and `index` is the next free slot when the slot is free, or the
sentinel `-1` when the slot is in use.  Default construction (as done by
`centries_.resize`) gives `cb` empty and `index = -1`, as the comment
`centries_.resize(512);  // .index = -1` in `Init` records. -/
structure CEntry where
  cb : Option Nat
  index : Int
deriving DecidableEq, Inhabited

/-- The completion table: the `centries_` vector together with the free-list
head `next_free_ce_` (`-1` when the free list is empty). -/
structure CTable where
  centries : List CEntry
  next_free : Int
deriving DecidableEq, Inhabited

/-- `EpollProactor::RegrowCentries`: `centries_.resize(prev * 2)` appends
`prev` default entries (`cb` empty, `index = -1`), then
`for (; prev < centries_.size() - 1; ++prev) centries_[prev].index = prev + 1`
links every new slot except the last to its successor, and
`next_free_ce_ = prev` points the free list at the first new slot.  The
appended tail is written here directly as the list this resize-then-link loop
produces: slot `prev + j` holds `index = prev + j + 1` while that is below
`2 * prev`, and the final slot keeps its default `-1`. -/
def RegrowCentries (s : CTable) : CTable :=
  let prev := s.centries.length
  let newTail := (List.range prev).map fun j =>
    { cb := none
      index := if prev + j + 1 < 2 * prev then ((prev + j + 1 : Nat) : Int) else -1 }
  { centries := s.centries ++ newTail, next_free := (prev : Int) }

/-- `EpollProactor::Arm` (completion-table part): regrow when
`next_free_ce_ < 0`, pop the free-list head, install the callback and mark the
slot in use (`index = -1`), and return the slot index as the handle.  The
kernel-side `epoll_ctl(EPOLL_CTL_ADD, ...)` registration does not touch the
table and is not part of the table model.  An out-of-range free head (which
the code would access out of bounds; it cannot occur in reachable states)
leaves the table unchanged. -/
def Arm (s : CTable) (cb : Nat) : Nat × CTable :=
  let s := if s.next_free < 0 then RegrowCentries s else s
  let ret := s.next_free.toNat
  match s.centries[ret]? with
  | none => (ret, s)
  | some e =>
      (ret, { centries := s.centries.set ret { cb := some cb, index := -1 }
              next_free := e.index })

/-- `EpollProactor::Disarm` (completion-table part): after
`CHECK_LT(arm_index, centries_.size())` (modelled as the `none` result on
failure, since `CHECK` aborts the process), clear the callback, push the slot
onto the free list (`index := next_free_ce_; next_free_ce_ := arm_index`).
The kernel-side `EpollDel` does not touch the table. -/
def Disarm (s : CTable) (armIndex : Nat) : Option CTable :=
  if armIndex < s.centries.length then
    some { centries := s.centries.set armIndex { cb := none, index := s.next_free }
           next_free := (armIndex : Int) }
  else none

/-- `EpollProactor::Disarm` with its thread check made explicit.  The first
line of `Disarm` is `DCHECK(pthread_self() == thread_id_)`: a debug-only
assertion that aborts with a check-failure message when the caller is not the
owning thread, and compiles to nothing in NDEBUG builds.  `dcheckEnabled`
models the build mode; threads are abstract identifiers.  `CHECK_LT` on the
handle is active in every build. -/
def DisarmChecked (dcheckEnabled : Bool) (callerThread ownerThread : Nat)
    (s : CTable) (armIndex : Nat) : Except String CTable :=
  if dcheckEnabled ∧ callerThread ≠ ownerThread then
    .error "Check failed: pthread_self() == thread_id_"
  else if armIndex < s.centries.length then
    .ok { centries := s.centries.set armIndex { cb := none, index := s.next_free }
          next_free := (armIndex : Int) }
  else .error "Check failed: arm_index < centries_.size()"

/-- One normalized readiness event on the Linux backend: `USER_DATA(cqe)` is
`cqe.data.u32` and `KEV_MASK(cqe)` is `cqe.events`. -/
structure Cqe where
  userData : Nat
  events : Nat
deriving DecidableEq

/-- `KEV_ERROR(cqe)` on Linux is the literal `(0)` (line 71): the epoll event
carries no error word. -/
def kevErrorLinux (_c : Cqe) : Int := 0

/-- `KEV_ERROR(cqe)` on the kqueue backend is `cqe.fflags` (line 133). -/
def kevErrorBsd (fflags : Int) : Int := fflags

/-- A record of one callback invocation `item.cb(ev_mask, ev_err, this)`:
which callback ran and the `(mask, error)` pair it received. -/
structure Invocation where
  cb : Nat
  mask : Nat
  err : Int
deriving DecidableEq

/-- One step of the loop body of `EpollProactor::DispatchCompletions` (Linux
backend), producing the invocations it performs (the table itself is read
through a `const` reference and never written).  For `user_data` at or above
`kUserDataCbIndex`, the entry is looked up at `user_data - kUserDataCbIndex`
(the code `DCHECK`s the bound; an out-of-range index invokes nothing) and the
callback runs only when `item.index == -1 && item.cb`; otherwise the event is
dropped.  `user_data == kIgnoreIndex` is skipped, and any other reserved value
is only logged. -/
def dispatchOne (centries : List CEntry) (c : Cqe) : List Invocation :=
  if kUserDataCbIndex ≤ c.userData then
    match centries[c.userData - kUserDataCbIndex]? with
    | some item =>
        match item.cb with
        | some f => if item.index = -1 then [⟨f, c.events, kevErrorLinux c⟩] else []
        | none => []
    | none => []
  else []

/-- `EpollProactor::DispatchCompletions` over a fetched batch, in kernel
order. -/
def DispatchCompletions (centries : List CEntry) (events : List Cqe) :
    List Invocation :=
  events.flatMap (dispatchOne centries)

/-- Result of the remote-task-queue drain block of `EpollProactor::MainLoop`
(lines 198-229): `cnt` is the local task counter, `runs` the number of
`++stats_.num_task_runs` increments performed inside the do-while loop,
`notifies` the number of `task_queue_avail_.notifyAll()` calls inside the
loop, and `exhausted` the final value of `task_queue_exhausted`. -/
structure DrainRes where
  cnt : Nat
  runs : Nat
  notifies : Nat
  exhausted : Bool
deriving DecidableEq

/-- The body of the drain's do-while loop.  The clock is modelled by giving
each task the value `GetClockNanos()` returns right after it runs:
`clockAfter` for the task already dequeued, and one entry of `rest` per
remaining queued task.  Each pass runs the task, bumps `num_task_runs` and
`cnt`, breaks with `task_queue_exhausted = false` once more than 500000 ns
have passed since `taskStart`, notifies the availability event-count when
`cnt == 32`, and continues while `try_dequeue` succeeds. -/
def drainBody (taskStart clockAfter : Nat) (rest : List Nat)
    (cnt runs notifies : Nat) : DrainRes :=
  if taskStart + 500000 < clockAfter then
    ⟨cnt + 1, runs + 1, notifies, false⟩
  else
    match rest with
    | [] => ⟨cnt + 1, runs + 1, if cnt + 1 = 32 then notifies + 1 else notifies, true⟩
    | c :: rs =>
        drainBody taskStart c rs (cnt + 1) (runs + 1)
          (if cnt + 1 = 32 then notifies + 1 else notifies)

/-- The whole drain block: nothing happens when the first `try_dequeue` fails
(empty queue); otherwise the do-while loop runs with `cnt = 0`. -/
def drainQueue (taskStart : Nat) (queue : List Nat) : Option DrainRes :=
  match queue with
  | [] => none
  | c :: rest => some (drainBody taskStart c rest 0 0 0)

/-- Total increase of `stats_.num_task_runs` across the drain block: the
in-loop increments plus the `stats_.num_task_runs += cnt` after the loop. -/
def drainStatIncrease (r : DrainRes) : Nat := r.runs + r.cnt

/-- Total `task_queue_avail_.notifyAll()` calls across the drain block: the
in-loop calls plus the unconditional one after the loop. -/
def drainTotalNotifies (r : DrainRes) : Nat := r.notifies + 1

/-- The millisecond timeout `MainLoop` derives from the nearest sleep point
when it is about to park (lines 256-268): with `now < tp` it rounds the
nanosecond distance up, `timeout = (ns + 1000000 - 1) / 1000000`; otherwise
`timeout = 0`.  `now` and `tp` are `steady_clock` readings in nanoseconds. -/
def parkTimeoutMs (now tp : Nat) : Nat :=
  if now < tp then (tp - now + 1000000 - 1) / 1000000 else 0

/-- The timeout with which one `MainLoop` iteration reaches the first
`EpollWait` (lines 234-271), as a function of what the iteration observed:
the drain's `task_queue_exhausted` flag, `scheduler->HasReady()`, the spin
counter against `kMaxSpinLimit` (defined outside this file; kept abstract as
`spinLimit`), whether the CAS of `tq_seq_` to `WAIT_SECTION_STATE` succeeded,
`is_stopped_`, `scheduler->HasSleepingFibers()`, and the clock/deadline pair
feeding `parkTimeoutMs`.  `none` models the `break` that exits the loop when
`is_stopped_` is observed after a successful CAS. -/
def epollWaitTimeout (exhausted hasReady : Bool) (spinLoops spinLimit : Nat)
    (casOk stopped hasSleeping : Bool) (now tp : Nat) : Option Int :=
  let t0 : Int := 0
  match (if exhausted = true ∧ hasReady = false ∧ spinLimit ≤ spinLoops ∧ casOk = true then
           (if stopped then none else some (-1 : Int))
         else some t0) with
  | none => none
  | some t =>
      some (if t = -1 ∧ hasSleeping = true then (parkTimeoutMs now tp : Int) else t)

/-- The tail of one `MainLoop` iteration after completion dispatch (lines
303-318): `cqe_count` is forced to 1 when `scheduler->RunWorkerFibersStep()`
returns false; a non-zero `cqe_count` restarts the loop; otherwise terminated
fibers are destroyed and, when `RunOnIdleTasks()` reports no work, the thread
executes `Pause` and increments `spin_loops` (the back-off path).

Modelled from the spec: `RunWorkerFibersStep` belongs to the scheduler, whose
code is not in this file; per the spec it returns a Bool meaning "more work
remains" (`moreWork` here).  `RunOnIdleTasks`'s Bool (`idleWork`) likewise
reports whether the idle pass produced work. -/
structure TailRes where
  paused : Bool
  spinLoops : Nat
deriving DecidableEq

def iterTail (cqeCount : Nat) (moreWork idleWork : Bool) (spinLoops : Nat) :
    TailRes :=
  let cqeCount := if moreWork = false then 1 else cqeCount
  if cqeCount ≠ 0 then ⟨false, spinLoops⟩
  else if idleWork then ⟨false, spinLoops⟩
  else ⟨true, spinLoops + 1⟩

/-! ### Helper lemmas about the drain loop -/

/-- Inside the drain loop, `cnt` and `num_task_runs` advance in lockstep. -/
theorem drainBody_runs_cnt (rest : List Nat) :
    ∀ t c cnt runs n, (drainBody t c rest cnt runs n).runs + cnt =
      (drainBody t c rest cnt runs n).cnt + runs := by
  induction rest with
  | nil =>
      intro t c cnt runs n
      simp only [drainBody]
      by_cases hb : t + 500000 < c
      · rw [if_pos hb]; show runs + 1 + cnt = cnt + 1 + runs; omega
      · rw [if_neg hb]; show runs + 1 + cnt = cnt + 1 + runs; omega
  | cons c' rs ih =>
      intro t c cnt runs n
      simp only [drainBody]
      by_cases hb : t + 500000 < c
      · rw [if_pos hb]; show runs + 1 + cnt = cnt + 1 + runs; omega
      · rw [if_neg hb]
        have h := ih t c' (cnt + 1) (runs + 1) (if cnt + 1 = 32 then n + 1 else n)
        omega

/-- The drain loop strictly increases `cnt`. -/
theorem drainBody_cnt_lt (rest : List Nat) :
    ∀ t c cnt runs n, cnt < (drainBody t c rest cnt runs n).cnt := by
  induction rest with
  | nil =>
      intro t c cnt runs n
      simp only [drainBody]
      by_cases hb : t + 500000 < c
      · rw [if_pos hb]; show cnt < cnt + 1; omega
      · rw [if_neg hb]; show cnt < cnt + 1; omega
  | cons c' rs ih =>
      intro t c cnt runs n
      simp only [drainBody]
      by_cases hb : t + 500000 < c
      · rw [if_pos hb]; show cnt < cnt + 1; omega
      · rw [if_neg hb]
        have h := ih t c' (cnt + 1) (runs + 1) (if cnt + 1 = 32 then n + 1 else n)
        omega

/-- Once `cnt` has passed 32, the loop never notifies again. -/
theorem drainBody_notifies_sat (rest : List Nat) :
    ∀ t c cnt runs n, 32 ≤ cnt →
      (drainBody t c rest cnt runs n).notifies = n := by
  induction rest with
  | nil =>
      intro t c cnt runs n h
      simp only [drainBody]
      have h32 : ¬(cnt + 1 = 32) := by omega
      by_cases hb : t + 500000 < c
      · rw [if_pos hb]
      · rw [if_neg hb, if_neg h32]
  | cons c' rs ih =>
      intro t c cnt runs n h
      simp only [drainBody]
      have h32 : ¬(cnt + 1 = 32) := by omega
      by_cases hb : t + 500000 < c
      · rw [if_pos hb]
      · rw [if_neg hb, if_neg h32]
        exact ih t c' (cnt + 1) (runs + 1) n (by omega)

/-- Characterization of the in-loop notify count, for an accumulator still
below 32: exactly one notify happens when at least 32 tasks run and the 32nd
does not hit the 500 µs budget break, and none otherwise. -/
theorem drainBody_notifies_char (rest : List Nat) :
    ∀ t c cnt runs n, cnt < 32 →
      (drainBody t c rest cnt runs n).notifies =
        n + (if 32 ≤ (drainBody t c rest cnt runs n).cnt ∧
               ¬((drainBody t c rest cnt runs n).cnt = 32 ∧
                 (drainBody t c rest cnt runs n).exhausted = false)
             then 1 else 0) := by
  induction rest with
  | nil =>
      intro t c cnt runs n h
      simp only [drainBody]
      by_cases hb : t + 500000 < c
      · simp only [if_pos hb]
        split
        · rename_i h1
          exfalso
          simp at h1
          omega
        · show n = n + 0
          omega
      · by_cases h32 : cnt + 1 = 32
        · simp only [if_neg hb, if_pos h32]
          split
          · show n + 1 = n + 1
            rfl
          · rename_i h1
            exfalso
            simp at h1
            omega
        · simp only [if_neg hb, if_neg h32]
          split
          · rename_i h1
            exfalso
            simp at h1
            omega
          · show n = n + 0
            omega
  | cons c' rs ih =>
      intro t c cnt runs n h
      simp only [drainBody]
      by_cases hb : t + 500000 < c
      · simp only [if_pos hb]
        split
        · rename_i h1
          exfalso
          simp at h1
          omega
        · show n = n + 0
          omega
      · by_cases h32 : cnt + 1 = 32
        · have hsat := drainBody_notifies_sat rs t c' (cnt + 1) (runs + 1) (n + 1)
            (by omega)
          have hlt := drainBody_cnt_lt rs t c' (cnt + 1) (runs + 1) (n + 1)
          have hne : ¬((drainBody t c' rs (cnt + 1) (runs + 1) (n + 1)).cnt = 32) := by
            omega
          simp only [if_neg hb, if_pos h32]
          rw [hsat]
          split
          · rfl
          · rename_i h1
            exact absurd ⟨by omega, fun hc => absurd hc.1 hne⟩ h1
        · simp only [if_neg hb, if_neg h32]
          exact ih t c' (cnt + 1) (runs + 1) n (by omega)

/-- When every task's post-run clock stays within the 500 µs budget, the
drain runs the whole queue and reports it exhausted. -/
theorem drainBody_fast (rest : List Nat) :
    ∀ t c cnt runs n, ¬(t + 500000 < c) → (∀ x ∈ rest, ¬(t + 500000 < x)) →
      (drainBody t c rest cnt runs n).cnt = cnt + 1 + rest.length ∧
      (drainBody t c rest cnt runs n).exhausted = true := by
  induction rest with
  | nil =>
      intro t c cnt runs n hc _
      simp only [drainBody]
      rw [if_neg hc]
      exact ⟨by simp, rfl⟩
  | cons c' rs ih =>
      intro t c cnt runs n hc hall
      simp only [drainBody]
      rw [if_neg hc]
      have h1 : ¬(t + 500000 < c') := hall c' (List.mem_cons_self _ _)
      have h2 : ∀ x ∈ rs, ¬(t + 500000 < x) := fun x hx => hall x (List.mem_cons_of_mem _ hx)
      have hrec := ih t c' (cnt + 1) (runs + 1) (if cnt + 1 = 32 then n + 1 else n) h1 h2
      refine ⟨?_, hrec.2⟩
      rw [hrec.1]
      simp
      omega

/-- Writing back the value a list already holds at a position is a no-op. -/
theorem list_set_self {α : Type _} (l : List α) (n : Nat) (a : α)
    (h : l[n]? = some a) : l.set n a = l := by
  induction l generalizing n with
  | nil => simp at h
  | cons x xs ih =>
      cases n with
      | zero =>
          simp at h
          simp [h]
      | succ m =>
          simp at h
          simp [ih m h]

/-! ### Claim theorems -/

/-- C4 counterexample: on a full table (empty free list) `Arm` regrows the
table, so an immediately following `Disarm` cannot return the table to its
pre-`Arm` state: the entries array has doubled.  Here the pre-state is a
one-slot table whose single slot is in use. -/
theorem arm_disarm_regrow_not_restored :
    Disarm (Arm ⟨[⟨some 7, -1⟩], -1⟩ 5).2 (Arm ⟨[⟨some 7, -1⟩], -1⟩ 5).1 ≠
      some ⟨[⟨some 7, -1⟩], -1⟩ := by decide

/-- C4 (amended): for every table state whose free list is non-empty (head
`f` in bounds with, as `DCHECK(!e.cb)` asserts, no callback installed),
`Arm` followed immediately by `Disarm` of the returned handle restores the
completion table exactly — entries array and `next_free` head included. -/
theorem arm_disarm_roundtrip_exact :
    ∀ (s : CTable) (cb f : Nat) (e : CEntry),
      s.next_free = (f : Int) → s.centries[f]? = some e → e.cb = none →
      Disarm (Arm s cb).2 (Arm s cb).1 = some s := by
  intro s cb f e hnf hget hcb
  have hflen : f < s.centries.length := (List.getElem?_eq_some_iff.mp hget).1
  unfold Arm
  have hpos : ¬(s.next_free < 0) := by
    rw [hnf]
    omega
  rw [if_neg hpos]
  have htn : s.next_free.toNat = f := by
    rw [hnf]
    exact Int.toNat_ofNat f
  simp only [htn, hget]
  unfold Disarm
  rw [if_pos (by simpa using hflen)]
  have hset : (s.centries.set f ⟨some cb, -1⟩).set f ⟨none, e.index⟩ = s.centries := by
    rw [List.set_set]
    have he : (⟨none, e.index⟩ : CEntry) = e := by
      rw [← hcb]
    rw [he]
    exact list_set_self s.centries f e hget
  simp only [hset, ← hnf]

/-- C4 (amended) witness at a one-slot table whose slot is free. -/
theorem arm_disarm_roundtrip_exact_witness :
    Disarm (Arm ⟨[⟨none, -1⟩], 0⟩ 9).2 (Arm ⟨[⟨none, -1⟩], 0⟩ 9).1 =
      some ⟨[⟨none, -1⟩], 0⟩ :=
  arm_disarm_roundtrip_exact ⟨[⟨none, -1⟩], 0⟩ 9 0 ⟨none, -1⟩ rfl rfl rfl

/-- The entries array `RegrowCentries` produces, written as a plain append. -/
theorem regrow_centries_eq (s : CTable) :
    (RegrowCentries s).centries = s.centries ++ (List.range s.centries.length).map
      (fun j => ⟨none, if s.centries.length + j + 1 < 2 * s.centries.length
          then ((s.centries.length + j + 1 : Nat) : Int) else -1⟩) := rfl

/-- C5: `Arm` regrows the table exactly when the free list is empty
(`next_free = -1`, the only negative value the field takes): afterwards the
entries array has exactly twice its old length, and otherwise its length is
unchanged.  `RegrowCentries` doubles the capacity, points `next_free` at the
first new slot and links the new slots in ascending index order (slot `i`
holds `i + 1`, the final slot the end marker `-1`).  Neither `Arm` nor
`Disarm` ever shrinks the table. -/
theorem regrow_exactly_when_free_list_empty :
    ∀ (s : CTable) (cb : Nat), -1 ≤ s.next_free →
      ((Arm s cb).2.centries.length =
        (if s.next_free = -1 then 2 * s.centries.length else s.centries.length)) ∧
      (RegrowCentries s).centries.length = 2 * s.centries.length ∧
      (RegrowCentries s).next_free = (s.centries.length : Int) ∧
      (∀ i : Nat, s.centries.length ≤ i → i + 1 < 2 * s.centries.length →
        (RegrowCentries s).centries[i]? = some ⟨none, (i : Int) + 1⟩) ∧
      (1 ≤ s.centries.length →
        (RegrowCentries s).centries[2 * s.centries.length - 1]? = some ⟨none, -1⟩) ∧
      s.centries.length ≤ (Arm s cb).2.centries.length ∧
      (∀ (idx : Nat) (s' : CTable), Disarm s idx = some s' →
        s'.centries.length = s.centries.length) := by
  intro s cb hge
  have hreglen : (RegrowCentries s).centries.length = 2 * s.centries.length := by
    simp [RegrowCentries]
    omega
  have harm : (Arm s cb).2.centries.length =
      (if s.next_free = -1 then 2 * s.centries.length else s.centries.length) := by
    by_cases hneg : s.next_free < 0
    · have hm1 : s.next_free = -1 := by omega
      rw [if_pos hm1]
      unfold Arm
      rw [if_pos hneg]
      rcases hg : (RegrowCentries s).centries[(RegrowCentries s).next_free.toNat]? with
        _ | e <;> simp [hg, hreglen]
    · have hm1 : ¬(s.next_free = -1) := by omega
      rw [if_neg hm1]
      unfold Arm
      rw [if_neg hneg]
      rcases hg : s.centries[s.next_free.toNat]? with _ | e <;> simp [hg]
  refine ⟨harm, hreglen, rfl, ?_, ?_, ?_, ?_⟩
  · intro i h1 h2
    rw [regrow_centries_eq, List.getElem?_append_right h1, List.getElem?_map,
      List.getElem?_range (by omega)]
    have hcond : s.centries.length + (i - s.centries.length) + 1 < 2 * s.centries.length := by
      omega
    have heq : s.centries.length + (i - s.centries.length) + 1 = i + 1 := by omega
    simp [hcond, heq]
    rw [if_pos h2]
    omega
  · intro hlen
    rw [regrow_centries_eq, List.getElem?_append_right (by omega), List.getElem?_map,
      List.getElem?_range (by omega)]
    have hcond : ¬(s.centries.length + (2 * s.centries.length - 1 - s.centries.length) + 1 <
        2 * s.centries.length) := by omega
    simp [hcond]
  · rw [harm]
    split <;> omega
  · intro idx s' h
    unfold Disarm at h
    by_cases hb : idx < s.centries.length
    · rw [if_pos hb] at h
      injection h with h
      rw [← h]
      simp
    · rw [if_neg hb] at h
      cases h

/-- C5 witness at a full one-slot table (empty free list): the regrow
doubles the length. -/
theorem regrow_exactly_when_free_list_empty_witness :
    (RegrowCentries ⟨[⟨some 7, -1⟩], -1⟩).centries.length =
      2 * ([⟨some 7, -1⟩] : List CEntry).length :=
  (regrow_exactly_when_free_list_empty ⟨[⟨some 7, -1⟩], -1⟩ 5 (by decide)).2.1

/-- C8 counterexample: in an NDEBUG build the wrong-thread `DCHECK` in
`Disarm` compiles to nothing, so a `Disarm` issued from a foreign thread
(caller 1, owner 2) with a valid handle completes normally instead of
aborting. -/
theorem disarm_wrong_thread_release_no_abort :
    DisarmChecked false 1 2 ⟨[⟨some 3, -1⟩], -1⟩ 0 = .ok ⟨[⟨none, -1⟩], 0⟩ := rfl

/-- C8 (amended): when DCHECKs are compiled in (debug build), calling
`Disarm` from any thread other than the owner aborts with the check-failure
message, for every table state and handle argument. -/
theorem disarm_wrong_thread_debug_aborts :
    ∀ (cur owner : Nat) (s : CTable) (idx : Nat), cur ≠ owner →
      DisarmChecked true cur owner s idx =
        .error "Check failed: pthread_self() == thread_id_" := by
  intro cur owner s idx h
  unfold DisarmChecked
  rw [if_pos ⟨rfl, h⟩]

/-- C8 (amended) witness: caller thread 1, owner thread 2. -/
theorem disarm_wrong_thread_debug_aborts_witness :
    DisarmChecked true 1 2 ⟨[], -1⟩ 0 =
      .error "Check failed: pthread_self() == thread_id_" :=
  disarm_wrong_thread_debug_aborts 1 2 ⟨[], -1⟩ 0 (by decide)

/-- C1: whenever the iteration reaches `EpollWait` with a negative timeout
(an indefinite park), the drain left `task_queue_exhausted` true and
`scheduler->HasReady()` reported false; the loop never parks while either
holds. -/
theorem park_requires_exhausted_and_no_ready :
    ∀ (exhausted hasReady : Bool) (spinLoops spinLimit : Nat)
      (casOk stopped hasSleeping : Bool) (now tp : Nat) (t : Int),
      epollWaitTimeout exhausted hasReady spinLoops spinLimit casOk stopped hasSleeping now tp
        = some t → t < 0 → exhausted = true ∧ hasReady = false := by
  intro ex hr sl slim cas st hs now tp t hsome ht
  by_cases hg : ex = true ∧ hr = false ∧ slim ≤ sl ∧ cas = true
  · exact ⟨hg.1, hg.2.1⟩
  · exfalso
    unfold epollWaitTimeout at hsome
    simp only [if_neg hg] at hsome
    simp at hsome
    omega

/-- C1 witness: a parking iteration (`some (-1)`) with `exhausted = true`,
`hasReady = false`. -/
theorem park_requires_exhausted_and_no_ready_witness :
    epollWaitTimeout true false 10 10 true false false 0 0 = some (-1) ∧
      (true = true ∧ false = false) :=
  ⟨by decide,
   park_requires_exhausted_and_no_ready true false 10 10 true false false 0 0 (-1)
     (by decide) (by decide)⟩

/-- C2: for a completion event whose `user_data` is in the handle range,
`DispatchCompletions` invokes the stored callback exactly when the entry
satisfies `index == -1` and a callback is present (and then it invokes that
callback, with the event's mask and error 0); otherwise the event is dropped
with no invocation (the table itself is never written by dispatch, which
reads it through a `const` reference). -/
theorem dispatch_callback_validity :
    ∀ (es : List CEntry) (c : Cqe), kUserDataCbIndex ≤ c.userData →
      ((dispatchOne es c ≠ []) ↔
        ∃ item, es[c.userData - kUserDataCbIndex]? = some item ∧
          item.index = -1 ∧ item.cb.isSome = true) ∧
      (∀ (item : CEntry) (f : Nat), es[c.userData - kUserDataCbIndex]? = some item →
        item.cb = some f → item.index = -1 →
        dispatchOne es c = [⟨f, c.events, 0⟩]) := by
  intro es c h
  unfold dispatchOne
  rw [if_pos h]
  constructor
  · rcases hi : es[c.userData - kUserDataCbIndex]? with _ | item
    · simp [hi]
    · rcases hc : item.cb with _ | f
      · simp [hi, hc]
      · by_cases hidx : item.index = -1
        · simp [hi, hc, hidx]
        · simp [hi, hc, hidx]
  · intro item f hi hc hidx
    simp [hi, hc, hidx, kevErrorLinux]

/-- C2 witness: a one-entry table with an armed slot, an event with
`user_data = 1024` and mask 3 invokes callback 7 with error 0. -/
theorem dispatch_callback_validity_witness :
    dispatchOne [⟨some 7, -1⟩] ⟨1024, 3⟩ = [⟨7, 3, 0⟩] :=
  (dispatch_callback_validity [⟨some 7, -1⟩] ⟨1024, 3⟩ (by decide)).2
    ⟨some 7, -1⟩ 7 rfl rfl rfl

/-- C3 counterexample: an iteration with no completions (`cqe_count = 0`),
`RunWorkerFibersStep()` returning true ("more work remains" per the spec)
and an idle pass that produced nothing DOES reach the back-off path: it
pauses and increments `spin_loops` from 5 to 6. -/
theorem backoff_despite_more_work :
    iterTail 0 true false 5 = ⟨true, 6⟩ := rfl

/-- C3 (amended): it is a false return of `RunWorkerFibersStep()` that
suppresses the back-off: in every iteration where the step returns false,
the loop restarts immediately with no `Pause` and no `spin_loops`
increment, whatever the completion count and idle-pass outcome. -/
theorem no_backoff_when_step_returns_false :
    ∀ (cqeCount : Nat) (idleWork : Bool) (spinLoops : Nat),
      iterTail cqeCount false idleWork spinLoops = ⟨false, spinLoops⟩ := by
  intro cq idle sp
  unfold iterTail
  simp

/-- C6: when the loop has decided to park and the nearest sleep deadline
`tp` is strictly in the future, the millisecond timeout is the least number
of milliseconds covering the remaining nanoseconds (a ceiling division), so
the wait never expires before the deadline; if `tp` is not in the future the
timeout is 0. -/
theorem park_timeout_rounds_up :
    ∀ now tp : Nat,
      (now < tp →
        (tp - now) ≤ parkTimeoutMs now tp * 1000000 ∧
        ∀ m : Nat, (tp - now) ≤ m * 1000000 → parkTimeoutMs now tp ≤ m) ∧
      (¬ now < tp → parkTimeoutMs now tp = 0) := by
  intro now tp
  constructor
  · intro h
    unfold parkTimeoutMs
    rw [if_pos h]
    have hd := Nat.div_add_mod (tp - now + 1000000 - 1) 1000000
    have hm : (tp - now + 1000000 - 1) % 1000000 < 1000000 := Nat.mod_lt _ (by omega)
    constructor
    · omega
    · intro m hm2
      omega
  · intro h
    unfold parkTimeoutMs
    rw [if_neg h]

/-- C6 witness: 1.5 ms remaining rounds up to a 2 ms timeout, which covers
the deadline. -/
theorem park_timeout_rounds_up_witness :
    (1500000 - 0) ≤ parkTimeoutMs 0 1500000 * 1000000 :=
  ((park_timeout_rounds_up 0 1500000).1 (by decide)).1

/-- C7 counterexample: a drain of 64 within-budget tasks signals the
availability notifier only once inside the loop (at the 32nd task), not
once per 32 tasks (which would be twice here). -/
theorem drain_notifies_once_not_every_32 :
    drainQueue 0 (List.replicate 64 0) = some (drainBody 0 0 (List.replicate 63 0) 0 0 0) ∧
    (drainBody 0 0 (List.replicate 63 0) 0 0 0).cnt = 64 ∧
    (drainBody 0 0 (List.replicate 63 0) 0 0 0).notifies = 1 := by
  have hfast := drainBody_fast (List.replicate 63 0) 0 0 0 0 0 (by omega)
    (fun x hx => by rw [List.eq_of_mem_replicate hx]; omega)
  have hcnt : (drainBody 0 0 (List.replicate 63 0) 0 0 0).cnt = 64 := by
    rw [hfast.1]
    simp
  have hchar := drainBody_notifies_char (List.replicate 63 0) 0 0 0 0 0 (by omega)
  refine ⟨rfl, hcnt, ?_⟩
  have hc1 : 32 ≤ (drainBody 0 0 (List.replicate 63 0) 0 0 0).cnt := by
    rw [hcnt]
    omega
  have hc2 : ¬((drainBody 0 0 (List.replicate 63 0) 0 0 0).cnt = 32 ∧
      (drainBody 0 0 (List.replicate 63 0) 0 0 0).exhausted = false) := by
    rintro ⟨ha, -⟩
    rw [hcnt] at ha
    exact absurd ha (by decide)
  rw [hchar]
  simp only [if_pos (And.intro hc1 hc2)]

/-- C7 (amended): during a single drain the availability notifier is
signalled inside the loop at most once — exactly once when at least 32
tasks ran and the drain did not stop at the 32nd task on the 500 µs budget
break, and zero times otherwise — and once more unconditionally after the
drain ends. -/
theorem drain_notify_at_most_once :
    ∀ (taskStart : Nat) (queue : List Nat) (r : DrainRes),
      drainQueue taskStart queue = some r →
      r.notifies = (if 32 ≤ r.cnt ∧ ¬(r.cnt = 32 ∧ r.exhausted = false) then 1 else 0) ∧
      drainTotalNotifies r = r.notifies + 1 := by
  intro t q r hq
  cases q with
  | nil => simp [drainQueue] at hq
  | cons c rest =>
      simp only [drainQueue] at hq
      injection hq with hq
      subst hq
      have h := drainBody_notifies_char rest t c 0 0 0 (by omega)
      exact ⟨by simpa using h, rfl⟩

/-- C7 (amended) witness: a one-task drain signals zero times inside the
loop and once after it. -/
theorem drain_notify_at_most_once_witness :
    (drainBody 0 5 [] 0 0 0).notifies =
      (if 32 ≤ (drainBody 0 5 [] 0 0 0).cnt ∧
          ¬((drainBody 0 5 [] 0 0 0).cnt = 32 ∧ (drainBody 0 5 [] 0 0 0).exhausted = false)
        then 1 else 0) ∧
    drainTotalNotifies (drainBody 0 5 [] 0 0 0) = (drainBody 0 5 [] 0 0 0).notifies + 1 :=
  drain_notify_at_most_once 0 [5] (drainBody 0 5 [] 0 0 0) rfl

/-- C9: a drain that executes `n` tasks increases `num_task_runs` by exactly
`2 n`: once per task inside the do-while loop, and the whole batch count
`cnt` again right after it. -/
theorem num_task_runs_double_count :
    ∀ (taskStart : Nat) (queue : List Nat) (r : DrainRes),
      drainQueue taskStart queue = some r →
      drainStatIncrease r = 2 * r.cnt := by
  intro t q r hq
  cases q with
  | nil => simp [drainQueue] at hq
  | cons c rest =>
      simp only [drainQueue] at hq
      injection hq with hq
      subst hq
      have h := drainBody_runs_cnt rest t c 0 0 0
      unfold drainStatIncrease
      omega

/-- C9 witness: a one-task drain bumps `num_task_runs` by 2. -/
theorem num_task_runs_double_count_witness :
    drainStatIncrease (drainBody 0 5 [] 0 0 0) = 2 * (drainBody 0 5 [] 0 0 0).cnt :=
  num_task_runs_double_count 0 [5] (drainBody 0 5 [] 0 0 0) rfl

/-- `dispatchOne` on the Linux backend yields either nothing or one
invocation of the stored callback with the event's mask and error 0. -/
theorem dispatchOne_shape (es : List CEntry) (c : Cqe) :
    dispatchOne es c = [] ∨ ∃ f, dispatchOne es c = [⟨f, c.events, 0⟩] := by
  unfold dispatchOne
  by_cases h : kUserDataCbIndex ≤ c.userData
  · rw [if_pos h]
    rcases hi : es[c.userData - kUserDataCbIndex]? with _ | item
    · exact Or.inl (by simp [hi])
    · rcases hc : item.cb with _ | f
      · exact Or.inl (by simp [hi, hc])
      · by_cases hidx : item.index = -1
        · exact Or.inr ⟨f, by simp [hi, hc, hidx, kevErrorLinux]⟩
        · exact Or.inl (by simp [hi, hc, hidx])
  · rw [if_neg h]
    exact Or.inl rfl

/-- Every invocation `dispatchOne` produces on the Linux backend carries
error 0 (`KEV_ERROR` is the literal 0 there). -/
theorem dispatchOne_err_zero (es : List CEntry) (c : Cqe) (inv : Invocation) :
    inv ∈ dispatchOne es c → inv.err = 0 := by
  intro hmem
  rcases dispatchOne_shape es c with h | ⟨f, h⟩
  · rw [h] at hmem
    simp at hmem
  · rw [h] at hmem
    simp at hmem
    rw [hmem]

/-- C10: on Linux every callback invoked by `DispatchCompletions` receives
error code 0, whatever the kernel events contained; on the kqueue backend
`KEV_ERROR` is `fflags`, which can be non-zero. -/
theorem linux_dispatch_error_always_zero :
    (∀ (es : List CEntry) (evs : List Cqe) (inv : Invocation),
      inv ∈ DispatchCompletions es evs → inv.err = 0) ∧
    kevErrorBsd 5 ≠ 0 := by
  constructor
  · intro es evs inv hmem
    unfold DispatchCompletions at hmem
    rw [List.mem_flatMap] at hmem
    obtain ⟨c, -, hc⟩ := hmem
    exact dispatchOne_err_zero es c inv hc
  · decide

/-- C10 witness: a concrete dispatched invocation carries error 0. -/
theorem linux_dispatch_error_always_zero_witness :
    (⟨7, 3, 0⟩ : Invocation).err = 0 :=
  linux_dispatch_error_always_zero.1 [⟨some 7, -1⟩] [⟨1024, 3⟩] ⟨7, 3, 0⟩ (by decide)

end EpollProactor
